import Mathlib

/-!
Shallow embedding of `hf_downloader.py` (void-gfly/hf_downloader):
the progress ledger (`ProgressTracker`), the pattern filter and the
retry/backoff fetcher of `AdvancedDownloader`, and `parse_repo_url`.
Timestamps (`datetime.now()`) are modelled as abstract natural numbers
supplied by the caller; file sizes (Python floats) are modelled as
rationals. The JSON persistence layer (`save_progress` / `load_progress`)
only serialises the in-memory dict — the in-memory `self.data` dict is the
state modelled here. The `last_update` field is written by every
`save_progress` call and carries no other information, so it is omitted
from the state record.
-/

namespace HFD

/-- Entry of the `file_details` dict: either a completed record
(`status: completed, size_mb, completed_time`) or a failed record
(`status: failed, error, failed_time`), as written by
`mark_file_completed` / `mark_file_failed`. -/
inductive FileDetail where
  | completed (size_mb : ℚ) (time : ℕ)
  | failed (error : String) (time : ℕ)
deriving DecidableEq, Repr

/-- Python dict update `d[k] = v`: replace the value in place when the key
exists (insertion order preserved), otherwise append the new binding. -/
def setDetail (k : String) (v : FileDetail) :
    List (String × FileDetail) → List (String × FileDetail)
  | [] => [(k, v)]
  | (k', v') :: rest =>
      if k' = k then (k, v) :: rest else (k', v') :: setDetail k v rest

/-- Python dict lookup `d.get(k)`. -/
def getDetail (k : String) : List (String × FileDetail) → Option FileDetail
  | [] => none
  | (k', v') :: rest => if k' = k then some v' else getDetail k rest

/-- The `self.data` dict of `ProgressTracker` (hf_downloader.py lines
222-233). `all_files` is optional because the freshly constructed dict has
no `all_files` key (it appears only after `init_task` runs); `start_time`
is optional because the fresh dict holds the empty string there. The
`last_update` timestamp (rewritten by every `save_progress`) is omitted. -/
structure Ledger where
  repo_id : String
  all_files : Option (List String)
  total_files : ℕ
  completed_files : List String
  failed_files : List String
  current_file : String
  start_time : Option ℕ
  total_size_mb : ℚ
  downloaded_size_mb : ℚ
  file_details : List (String × FileDetail)
deriving DecidableEq, Repr

/-- The dict built in `ProgressTracker.__init__` (lines 222-233), i.e. the
state when no progress file exists yet. -/
def freshLedger : Ledger :=
  { repo_id := ""
    all_files := none
    total_files := 0
    completed_files := []
    failed_files := []
    current_file := ""
    start_time := none
    total_size_mb := 0
    downloaded_size_mb := 0
    file_details := [] }

/-- `ProgressTracker.mark_file_completed` (lines 353-363): when the file is
not yet in `completed_files`, append it, add `size_mb` to
`downloaded_size_mb` and overwrite its `file_details` entry; otherwise do
nothing (besides the `save_progress` timestamp). -/
def mark_file_completed (filename : String) (size_mb : ℚ) (now : ℕ)
    (st : Ledger) : Ledger :=
  if filename ∈ st.completed_files then st
  else
    { st with
      completed_files := st.completed_files ++ [filename]
      downloaded_size_mb := st.downloaded_size_mb + size_mb
      file_details :=
        setDetail filename (.completed size_mb now) st.file_details }

/-- `ProgressTracker.mark_file_failed` (lines 365-374): when the file is
not yet in `failed_files`, append it and overwrite its `file_details`
entry; otherwise do nothing. -/
def mark_file_failed (filename : String) (error : String) (now : ℕ)
    (st : Ledger) : Ledger :=
  if filename ∈ st.failed_files then st
  else
    { st with
      failed_files := st.failed_files ++ [filename]
      file_details := setDetail filename (.failed error now) st.file_details }

/-- `ProgressTracker.set_current_file` (lines 376-379). -/
def set_current_file (filename : String) (st : Ledger) : Ledger :=
  { st with current_file := filename }

/-- `ProgressTracker.get_remaining_files` (lines 381-384):
`[f for f in all_files if f not in completed]`. -/
def get_remaining_files (all_files : List String) (st : Ledger) :
    List String :=
  all_files.filter (fun f => decide (f ∉ st.completed_files))

/-- The reset branch of `ProgressTracker.init_task` (lines 331-349): a
brand-new `self.data` dict for the given repository and file list, with
`start_time = datetime.now()`. -/
def resetLedger (repo_id : String) (files : List String) (now : ℕ) :
    Ledger :=
  { repo_id := repo_id
    all_files := some files
    total_files := files.length
    completed_files := []
    failed_files := []
    current_file := ""
    start_time := some now
    total_size_mb := 0
    downloaded_size_mb := 0
    file_details := [] }

/-- The two update branches of `ProgressTracker.init_task` (new files,
lines 276-303, and removed files, lines 305-329) perform the same
mutations: store the new list in `all_files` and `total_files`, and keep
only the `completed_files` / `failed_files` entries still present in the
new list. `file_details` is not touched by either branch. -/
def reconcileUpdate (files : List String) (st : Ledger) : Ledger :=
  { st with
    all_files := some files
    total_files := files.length
    completed_files :=
      st.completed_files.filter (fun f => decide (f ∈ files))
    failed_files :=
      st.failed_files.filter (fun f => decide (f ∈ files)) }

/-- `ProgressTracker.init_task` (lines 255-351). Reset when the repository
id differs or the stored dict predates the `all_files` field; otherwise
update (keeping progress) when the new list adds files not previously
known, or when previously known files disappeared; otherwise leave the
state unchanged. -/
def init_task (repo_id : String) (files : List String) (now : ℕ)
    (st : Ledger) : Ledger :=
  if st.repo_id ≠ repo_id then resetLedger repo_id files now
  else
    match st.all_files with
    | none => resetLedger repo_id files now
    | some prev =>
      if files.any (fun f => decide (f ∉ prev)) then reconcileUpdate files st
      else if prev.any (fun f => decide (f ∉ files)) then
        reconcileUpdate files st
      else st

/-! ### Glob matching (`fnmatch.fnmatch`)

`fnmatch.translate` turns a shell pattern into a whole-string regex:
`*` becomes `.*`, `?` becomes `.` (dot-all), `[...]` becomes a character
class (leading `!` negates; a `]` right after `[` or `[!` is a literal
member; an unclosed `[` is a literal `[`), and every other character is
literal. `os.path.normcase` is the identity on POSIX, so `fnmatch` equals
`fnmatchcase` here. -/

/-- Scan for the closing `]` of a character class: returns the class body
and the remainder of the pattern, or `none` when no `]` follows. -/
def findClose : List Char → Option (List Char × List Char)
  | [] => none
  | c :: r =>
      if c = ']' then some ([], r)
      else
        match findClose r with
        | none => none
        | some (b, rest) => some (c :: b, rest)

/-- Class-body scan where a leading `]` is a literal member
(CPython consumes one `]` right after `[` or `[!` before scanning). -/
def splitClassCore (p : List Char) : Option (List Char × List Char) :=
  match p with
  | ']' :: r =>
      match findClose r with
      | none => none
      | some (b, rest) => some (']' :: b, rest)
  | _ => findClose p

/-- Parse the text following a `[`: negation flag, class body, remainder.
`none` means the `[` has no closing `]` and is treated literally. -/
def splitClass (p : List Char) : Option (Bool × List Char × List Char) :=
  match p with
  | '!' :: p1 =>
      match splitClassCore p1 with
      | none => none
      | some (b, rest) => some (true, b, rest)
  | _ =>
      match splitClassCore p with
      | none => none
      | some (b, rest) => some (false, b, rest)

/-- Membership of a character in a class body, with `a-b` ranges (a `-` at
the end of the body is literal, as in a regex character class). -/
def classMatch : List Char → Char → Bool
  | [], _ => false
  | a :: '-' :: [], c => a == c || c == '-'
  | a :: '-' :: b :: rest, c => (a ≤ c && c ≤ b) || classMatch rest c
  | a :: rest, c => a == c || classMatch rest c

lemma findClose_length (l : List Char) :
    ∀ b rest, findClose l = some (b, rest) → rest.length < l.length := by
  induction l with
  | nil => intro b rest h; simp [findClose] at h
  | cons c r ih =>
    intro b rest h
    rw [findClose] at h
    split at h
    · injection h with h'
      injection h' with h1 h2
      subst h2; simp
    · split at h
      · exact absurd h (by simp)
      case h_2 b' rest' hr =>
        injection h with h'
        injection h' with h1 h2
        subst h2
        have := ih b' rest' hr
        simp; omega

lemma splitClassCore_length (p : List Char) (b rest : List Char)
    (h : splitClassCore p = some (b, rest)) : rest.length < p.length := by
  rw [splitClassCore.eq_def] at h
  split at h
  case h_1 r =>
    split at h
    · exact absurd h (by simp)
    case h_2 b' rest' hr =>
      injection h with h'
      injection h' with h1 h2
      subst h2
      have := findClose_length r b' rest' hr
      simp; omega
  · have := findClose_length p b rest h
    omega

lemma splitClass_length (p : List Char) (neg : Bool) (b rest : List Char)
    (h : splitClass p = some (neg, b, rest)) : rest.length < p.length := by
  rw [splitClass.eq_def] at h
  split at h
  case h_1 p1 =>
    split at h
    · exact absurd h (by simp)
    case h_2 b' rest' hr =>
      injection h with h'
      injection h' with h1 h2
      injection h2 with h2a h2b
      subst h2b
      have := splitClassCore_length p1 b' rest' hr
      simp; omega
  · split at h
    · exact absurd h (by simp)
    case h_2 b' rest' hr =>
      injection h with h'
      injection h' with h1 h2
      injection h2 with h2a h2b
      subst h2b
      exact splitClassCore_length p b' rest' hr

/-- Whole-string shell-glob match of the pattern (first argument) against
the string (second argument), following `fnmatch.translate`. -/
def globMatch : List Char → List Char → Bool
  | [], [] => true
  | [], _ :: _ => false
  | '*' :: p, s =>
      globMatch p s ||
        (match s with
         | [] => false
         | _ :: s' => globMatch ('*' :: p) s')
  | '?' :: p, s =>
      (match s with
       | [] => false
       | _ :: s' => globMatch p s')
  | '[' :: p, s =>
      (match h : splitClass p with
       | none =>
          match s with
          | '[' :: s' => globMatch p s'
          | _ => false
       | some (neg, body, rest) =>
          match s with
          | [] => false
          | c :: s' => (classMatch body c != neg) && globMatch rest s')
  | _ :: p, [] => false
  | c :: p, c' :: s' => (c == c') && globMatch p s'
termination_by p s => p.length + s.length
decreasing_by
  all_goals simp_wf
  all_goals try omega
  all_goals (have hsp := splitClass_length _ _ _ _ h; omega)

/-- `fnmatch.fnmatch(name, pat)` (POSIX `normcase` is the identity). -/
def fnmatch (name pat : String) : Bool :=
  globMatch pat.data name.data

/-- The inline pattern-filter of `AdvancedDownloader.download_repository`
(lines 517-539): when a non-empty include list is given (Python: an empty
list is falsy), keep the files matching at least one include glob; then,
when a non-empty exclude list is given, drop the files matching any
exclude glob. -/
def filterFiles (file_patterns ignore_patterns : Option (List String))
    (all_files : List String) : List String :=
  let files1 :=
    match file_patterns with
    | some (p :: ps) =>
        all_files.filter (fun f => (p :: ps).any (fun q => fnmatch f q))
    | _ => all_files
  match ignore_patterns with
  | some (p :: ps) =>
      files1.filter (fun f => !(p :: ps).any (fun q => fnmatch f q))
  | _ => files1

/-- Retention predicate as the specification words it: a file is retained
iff (the include list is absent OR the file matches at least one include
glob) AND (the exclude list is absent OR it matches none of the exclude
globs). -/
def retainFile (file_patterns ignore_patterns : Option (List String))
    (f : String) : Bool :=
  (match file_patterns with
   | none => true
   | some ps => ps.any (fun q => fnmatch f q)) &&
  (match ignore_patterns with
   | none => true
   | some ps => !ps.any (fun q => fnmatch f q))

/-- Concrete stored ledger used to exercise the shrink branch of
`init_task`: repository `r` previously knew files `a` and `b`, and `a` was
marked completed (with its detail record). -/
def shrinkExampleLedger : Ledger :=
  { repo_id := "r"
    all_files := some ["a", "b"]
    total_files := 2
    completed_files := ["a"]
    failed_files := []
    current_file := ""
    start_time := some 0
    total_size_mb := 0
    downloaded_size_mb := 1
    file_details := [("a", .completed 1 0)] }

/-! ### Retry-backoff fetcher (`AdvancedDownloader.download_single_file`) -/

/-- Environment of one `download_single_file` call: the local filesystem
probe, the HEAD metadata probe (`get_file_info`, lines 429-449, returns
content-length 0 when the header is absent or the request raised), the
cooperative stop flag as observed at the start of each attempt, and the
outcome of each `hf_hub_download` attempt (an error message, or the byte
size of the downloaded file in MB). `time` stands for `datetime.now()` in
the ledger detail records. -/
structure FetchEnv where
  localExists : Bool
  localSize : ℕ
  remoteBytes : ℕ
  stopAt : ℕ → Bool
  attemptResult : ℕ → Except String ℚ
  time : ℕ

/-- Result of a `download_single_file` call: the returned boolean, the
ledger after the call, how many transfer attempts (`hf_hub_download`
invocations) were performed, and the backoff sleeps (`time.sleep(2 **
attempt)`) performed, in order. -/
structure FetchOutcome where
  ok : Bool
  ledger : Ledger
  attempts : ℕ
  waits : List ℕ
deriving DecidableEq, Repr

/-- The `for attempt in range(max_retries)` loop of `download_single_file`
(lines 468-503): check the stop flag, try the transfer, and on failure
either record the failure (last attempt, `attempt == max_retries - 1`) or
sleep `2 ^ attempt` and retry. `fuel` is the number of loop iterations
left, `i` the current attempt index, `last = max_retries - 1`. -/
def attemptLoop (env : FetchEnv) (filename : String) (last : ℕ) :
    ℕ → ℕ → Ledger → List ℕ → FetchOutcome
  | 0, i, st, ws => ⟨false, st, i, ws⟩
  | fuel + 1, i, st, ws =>
      if env.stopAt i then ⟨false, st, i, ws⟩
      else
        match env.attemptResult i with
        | .ok size =>
            ⟨true, mark_file_completed filename size env.time st, i + 1, ws⟩
        | .error e =>
            if i = last then
              ⟨false, mark_file_failed filename e env.time st, i + 1, ws⟩
            else attemptLoop env filename last fuel (i + 1) st (ws ++ [2 ^ i])

/-- `AdvancedDownloader.download_single_file` (lines 451-503): when the
local file exists and the probed content-length is positive and equal to
the local size, mark completed and return success with no transfer
attempt; otherwise run the retry loop. -/
def download_single_file (env : FetchEnv) (max_retries : ℕ)
    (filename : String) (st : Ledger) : FetchOutcome :=
  if env.localExists then
    if 0 < env.remoteBytes then
      if env.localSize = env.remoteBytes then
        ⟨true,
          mark_file_completed filename
            ((env.remoteBytes : ℚ) / (1024 * 1024)) env.time st,
          0, []⟩
      else attemptLoop env filename (max_retries - 1) max_retries 0 st []
    else attemptLoop env filename (max_retries - 1) max_retries 0 st []
  else attemptLoop env filename (max_retries - 1) max_retries 0 st []

/-- Fetch environment where the local file exists but the metadata probe
reports content-length 0 (e.g. the probe failed or the header was absent),
and every transfer attempt fails. -/
def zeroLengthEnv : FetchEnv :=
  { localExists := true
    localSize := 0
    remoteBytes := 0
    stopAt := fun _ => false
    attemptResult := fun _ => .error "network"
    time := 0 }

/-- Fetch environment where the local file exists with exactly the probed
(positive) remote size. -/
def skipEnv : FetchEnv :=
  { localExists := true
    localSize := 5
    remoteBytes := 5
    stopAt := fun _ => false
    attemptResult := fun _ => .error "network"
    time := 4 }

/-- Fetch environment with no local file and every attempt failing with
message `boom`. -/
def allFailEnv : FetchEnv :=
  { localExists := false
    localSize := 0
    remoteBytes := 0
    stopAt := fun _ => false
    attemptResult := fun _ => .error "boom"
    time := 7 }

/-- Fetch environment with no local file and every attempt failing with
message `new`. -/
def allFailEnvNew : FetchEnv :=
  { localExists := false
    localSize := 0
    remoteBytes := 0
    stopAt := fun _ => false
    attemptResult := fun _ => .error "new"
    time := 7 }

/-- Ledger in which file `a` is already recorded failed (from an earlier
run) with error message `old`. -/
def failedBeforeLedger : Ledger :=
  { repo_id := "r"
    all_files := some ["a"]
    total_files := 1
    completed_files := []
    failed_files := ["a"]
    current_file := ""
    start_time := some 0
    total_size_mb := 0
    downloaded_size_mb := 0
    file_details := [("a", .failed "old" 0)] }

/-! ### Coordinator (`AdvancedDownloader.download_repository`, executor
section, lines 550-617)

The thread-pool section is modelled sequentially, fixing the interleaving
of the claim's scenario: the first `k` dispatched files run to their
natural completion or failure (each worker records its own result in the
ledger, then the completion loop stores the `current_file` hint), and then
the cancellation flag is observed, so the remaining files are either never
dispatched (line 568) or abort inside `download_single_file` before any
transfer attempt (lines 469-470) — in both cases without touching the
ledger, and the completion loop breaks (lines 575-576). Per-file transfer
results are abstracted by `outcome`. After the loop the function returns
`final_progress['failed'] == 0` (line 617). -/

/-- Apply the per-file results of the files that ran to completion, in
completion order: the worker marks the file completed or failed, then the
completion loop sets the `current_file` hint. -/
def processFiles (time : ℕ) (outcome : String → Except String ℚ) :
    List String → Ledger → Ledger
  | [], st => st
  | f :: fs, st =>
      processFiles time outcome fs
        (set_current_file f
          (match outcome f with
           | .ok s => mark_file_completed f s time st
           | .error e => mark_file_failed f e time st))

/-- Sequential model of the executor section of `download_repository`:
with `cancelAfter = some k`, the flag is observed once `k` files have
finished, so exactly `remaining.take k` is recorded; with `none`, every
file runs. Returns the boolean of line 617 (`failed == 0`) together with
the final ledger; an empty remaining list returns `True` immediately
(lines 550-552). -/
def download_repository_run (time : ℕ)
    (outcome : String → Except String ℚ) (remaining : List String)
    (cancelAfter : Option ℕ) (st : Ledger) : Bool × Ledger :=
  if remaining.isEmpty then (true, st)
  else
    let k := match cancelAfter with
      | none => remaining.length
      | some k => min k remaining.length
    let final := processFiles time outcome (remaining.take k) st
    (final.failed_files.length == 0, final)

/-! ### URL parsing (`parse_repo_url`, lines 631-659) -/

/-- Python `url.rstrip(slash)`: drop every trailing `/`. -/
def rstripSlash (s : List Char) : List Char :=
  (s.reverse.dropWhile (fun c => c == '/')).reverse

/-- Whether the second list is a prefix of the first. -/
def startsWithL : List Char → List Char → Bool
  | _, [] => true
  | [], _ :: _ => false
  | c :: s, d :: t => c == d && startsWithL s t

/-- Python `t in s`: the second list occurs as a contiguous run in the
first. -/
def containsSub : List Char → List Char → Bool
  | [], t => startsWithL [] t
  | c :: s', t => startsWithL (c :: s') t || containsSub s' t

/-- Python `s.split(sep)[0]` when `sep` occurs in `s`: the prefix of `s`
before the first occurrence of `sep` (all of `s` when absent). -/
def takeBefore : List Char → List Char → List Char
  | [], _ => []
  | c :: s', sep =>
      if startsWithL (c :: s') sep then [] else c :: takeBefore s' sep

/-- Left-to-right scan of Python `s.replace(t, "")` for non-empty `t`:
`skip` counts characters of a matched occurrence still to drop. -/
def removeAllAux (t : List Char) : ℕ → List Char → List Char
  | _, [] => []
  | n + 1, _ :: s' => removeAllAux t n s'
  | 0, c :: s' =>
      if startsWithL (c :: s') t then removeAllAux t (t.length - 1) s'
      else c :: removeAllAux t 0 s'

/-- Python `s.replace(t, "")`: delete every (non-overlapping, leftmost)
occurrence of `t` from `s`. -/
def removeAll (t s : List Char) : List Char :=
  removeAllAux t 0 s

/-- `parse_repo_url` (lines 631-659): strip trailing slashes, branch on
whether the (stripped) url mentions the mirror host, cut at the first
`/tree/` when present, and delete every occurrence of the endpoint
prefix. -/
def parse_repo_url (url : String) : String × Bool × String :=
  let u := rstripSlash url.data
  if containsSub u "hf-mirror.com".data then
    let repo :=
      if containsSub u "/tree/".data then
        removeAll "https://hf-mirror.com/".data (takeBefore u "/tree/".data)
      else removeAll "https://hf-mirror.com/".data u
    (String.mk repo, true, "https://hf-mirror.com")
  else
    let repo :=
      if containsSub u "/tree/".data then
        removeAll "https://huggingface.co/".data
          (takeBefore u "/tree/".data)
      else removeAll "https://huggingface.co/".data u
    (String.mk repo, false, "https://huggingface.co")

/-- The repo id exactly as claim C10 words it: the url with trailing `/`
characters stripped, truncated before the first occurrence of `/tree/`
when one is present, and with every occurrence of
`https://huggingface.co/` deleted. -/
def officialRepoId (url : String) : String :=
  let u := rstripSlash url.data
  let base := if containsSub u "/tree/".data then takeBefore u "/tree/".data
    else u
  String.mk (removeAll "https://huggingface.co/".data base)

/-! ### Helper lemmas -/

lemma getDetail_setDetail (k : String) (v : FileDetail)
    (d : List (String × FileDetail)) :
    getDetail k (setDetail k v d) = some v := by
  induction d with
  | nil => simp [setDetail, getDetail]
  | cons hd tl ih =>
    obtain ⟨k', v'⟩ := hd
    by_cases h : k' = k
    · simp [setDetail, getDetail, h]
    · simp [setDetail, getDetail, h, ih]

/-- Whatever branch `init_task` takes, the resulting state names the given
repository and stores a file list with the same members as `files`. -/
lemma init_task_result (repo_id : String) (files : List String) (now : ℕ)
    (st : Ledger) :
    ∃ l, (init_task repo_id files now st).repo_id = repo_id ∧
      (init_task repo_id files now st).all_files = some l ∧
      (∀ f ∈ files, f ∈ l) ∧ (∀ f ∈ l, f ∈ files) := by
  unfold init_task
  split
  · exact ⟨files, rfl, rfl, fun f hf => hf, fun f hf => hf⟩
  case isFalse hrepo =>
    rw [not_ne_iff] at hrepo
    split
    · exact ⟨files, rfl, rfl, fun f hf => hf, fun f hf => hf⟩
    case h_2 prev hprev =>
      by_cases hnew : files.any (fun f => decide (f ∉ prev))
      · rw [if_pos hnew]
        exact ⟨files, hrepo, rfl, fun f hf => hf, fun f hf => hf⟩
      · rw [if_neg hnew]
        by_cases hrem : prev.any (fun f => decide (f ∉ files))
        · rw [if_pos hrem]
          exact ⟨files, hrepo, rfl, fun f hf => hf, fun f hf => hf⟩
        · rw [if_neg hrem]
          simp only [List.any_eq_true, decide_eq_true_eq] at hnew hrem
          push_neg at hnew hrem
          exact ⟨prev, hrepo, hprev, hnew, hrem⟩

/-- Under the Python truthiness convention (an empty pattern list counts as
no list), the two-stage filter equals one filter by the spec's retention
predicate. -/
lemma filterFiles_eq_filter (incl excl : Option (List String))
    (files : List String) (hI : incl ≠ some []) (hE : excl ≠ some []) :
    filterFiles incl excl files = files.filter (retainFile incl excl) := by
  cases incl with
  | none =>
    cases excl with
    | none =>
      simp only [filterFiles]
      exact (List.filter_eq_self.mpr (fun a _ => by simp [retainFile])).symm
    | some pe =>
      cases pe with
      | nil => exact absurd rfl hE
      | cons q qs =>
        simp only [filterFiles]
        exact List.filter_congr (fun a _ => by simp [retainFile])
  | some pi =>
    cases pi with
    | nil => exact absurd rfl hI
    | cons p ps =>
      cases excl with
      | none =>
        simp only [filterFiles]
        exact List.filter_congr (fun a _ => by simp [retainFile])
      | some pe =>
        cases pe with
        | nil => exact absurd rfl hE
        | cons q qs =>
          simp only [filterFiles, List.filter_filter]
          exact List.filter_congr
            (fun a _ => by simp [retainFile, Bool.and_comm])

/-- When the stop flag never fires and every attempt in the window fails,
the retry loop performs all its attempts, sleeps `2 ^ i` after every
failed attempt except the last, and ends by recording the failure of the
last attempt. -/
lemma attemptLoop_all_fail (env : FetchEnv) (f : String) (m : ℕ → String)
    (hstop : ∀ j, env.stopAt j = false) :
    ∀ fuel i st ws, 0 < fuel →
      (∀ j, j < fuel → env.attemptResult (i + j) = .error (m (i + j))) →
      attemptLoop env f (i + fuel - 1) fuel i st ws =
        ⟨false, mark_file_failed f (m (i + fuel - 1)) env.time st, i + fuel,
          ws ++ (List.range (fuel - 1)).map (fun j => 2 ^ (i + j))⟩ := by
  intro fuel
  induction fuel with
  | zero => intro i st ws hpos; exact absurd hpos (by omega)
  | succ k ih =>
    intro i st ws hpos hfail
    have h0 : env.attemptResult i = .error (m i) := by
      simpa using hfail 0 (by omega)
    simp only [attemptLoop]
    rw [if_neg (by simp [hstop i])]
    simp only [h0]
    rcases Nat.eq_zero_or_pos k with hk | hk
    · subst hk
      rw [if_pos (by omega : i = i + (0 + 1) - 1)]
      have hi : i + (0 + 1) - 1 = i := by omega
      rw [hi]
      simp
    · have hne : i ≠ i + (k + 1) - 1 := by omega
      rw [if_neg hne]
      have harg : i + (k + 1) - 1 = i + 1 + k - 1 := by omega
      rw [harg]
      rw [ih (i + 1) st (ws ++ [2 ^ i]) hk (fun j hj => by
        have hj' := hfail (j + 1) (by omega)
        have he : i + (j + 1) = i + 1 + j := by omega
        rw [he] at hj'
        exact hj')]
      have hw : (List.range (k + 1 - 1)).map (fun j => 2 ^ (i + j)) =
          2 ^ i :: (List.range (k - 1)).map (fun j => 2 ^ (i + 1 + j)) := by
        obtain ⟨k', rfl⟩ : ∃ k', k = k' + 1 := ⟨k - 1, by omega⟩
        have hk1 : k' + 1 + 1 - 1 = k' + 1 := by omega
        have hk2 : k' + 1 - 1 = k' := by omega
        rw [hk1, hk2, List.range_succ_eq_map, List.map_cons, List.map_map]
        refine congrArg₂ _ (by simp) ?_
        refine List.map_congr_left (fun a _ => ?_)
        have : i + (a + 1) = i + 1 + a := by omega
        simp [Function.comp, this]
      have e2 : i + 1 + k = i + (k + 1) := by omega
      rw [e2, hw]
      simp

/-- A path already in `completed_files` stays there through any sequence
of per-file recordings (the marks only append). -/
lemma processFiles_completed_mono (time : ℕ)
    (outcome : String → Except String ℚ) :
    ∀ (L : List String) (st : Ledger) (f : String),
      f ∈ st.completed_files →
      f ∈ (processFiles time outcome L st).completed_files := by
  intro L
  induction L with
  | nil => intro st f h; exact h
  | cons g gs ih =>
    intro st f h
    simp only [processFiles]
    apply ih
    cases ho : outcome g with
    | ok s =>
      by_cases hg : g ∈ st.completed_files
      · simpa [set_current_file, mark_file_completed, hg] using h
      · simp [set_current_file, mark_file_completed, hg]
        exact Or.inl h
    | error e =>
      by_cases hg : g ∈ st.failed_files <;>
        simpa [set_current_file, mark_file_failed, hg] using h

/-- A path already in `failed_files` stays there through any sequence of
per-file recordings. -/
lemma processFiles_failed_mono (time : ℕ)
    (outcome : String → Except String ℚ) :
    ∀ (L : List String) (st : Ledger) (f : String),
      f ∈ st.failed_files →
      f ∈ (processFiles time outcome L st).failed_files := by
  intro L
  induction L with
  | nil => intro st f h; exact h
  | cons g gs ih =>
    intro st f h
    simp only [processFiles]
    apply ih
    cases ho : outcome g with
    | ok s =>
      by_cases hg : g ∈ st.completed_files <;>
        simpa [set_current_file, mark_file_completed, hg] using h
    | error e =>
      by_cases hg : g ∈ st.failed_files
      · simpa [set_current_file, mark_file_failed, hg] using h
      · simp [set_current_file, mark_file_failed, hg]
        exact Or.inl h

/-- A path not among the processed files is recorded by none of them: its
membership in `completed_files` and in `failed_files` is unchanged. -/
lemma processFiles_untouched (time : ℕ)
    (outcome : String → Except String ℚ) :
    ∀ (L : List String) (st : Ledger) (f : String), f ∉ L →
      (f ∈ (processFiles time outcome L st).completed_files ↔
        f ∈ st.completed_files) ∧
      (f ∈ (processFiles time outcome L st).failed_files ↔
        f ∈ st.failed_files) := by
  intro L
  induction L with
  | nil => intro st f _; exact ⟨Iff.rfl, Iff.rfl⟩
  | cons g gs ih =>
    intro st f hf
    have hfg : f ≠ g := fun h => hf (h ▸ List.mem_cons_self g gs)
    have hfgs : f ∉ gs := fun h => hf (List.mem_cons_of_mem g h)
    simp only [processFiles]
    constructor
    · rw [(ih _ f hfgs).1]
      cases ho : outcome g with
      | ok s =>
        by_cases hg : g ∈ st.completed_files
        · simp [set_current_file, mark_file_completed, hg]
        · simp [set_current_file, mark_file_completed, hg, hfg]
      | error e =>
        by_cases hg : g ∈ st.failed_files <;>
          simp [set_current_file, mark_file_failed, hg]
    · rw [(ih _ f hfgs).2]
      cases ho : outcome g with
      | ok s =>
        by_cases hg : g ∈ st.completed_files <;>
          simp [set_current_file, mark_file_completed, hg]
      | error e =>
        by_cases hg : g ∈ st.failed_files
        · simp [set_current_file, mark_file_failed, hg]
        · simp [set_current_file, mark_file_failed, hg, hfg]

/-- Every processed file's own result is recorded: a successful outcome
puts it in `completed_files`, a failing one in `failed_files`. -/
lemma processFiles_records (time : ℕ)
    (outcome : String → Except String ℚ) :
    ∀ (L : List String) (st : Ledger) (f : String), f ∈ L →
      (∀ s, outcome f = .ok s →
        f ∈ (processFiles time outcome L st).completed_files) ∧
      (∀ e, outcome f = .error e →
        f ∈ (processFiles time outcome L st).failed_files) := by
  intro L
  induction L with
  | nil => intro st f hf; exact absurd hf (List.not_mem_nil f)
  | cons g gs ih =>
    intro st f hf
    rcases List.mem_cons.mp hf with hfg | hfgs
    · subst hfg
      constructor
      · intro s hs
        simp only [processFiles, hs]
        apply processFiles_completed_mono
        by_cases hm : f ∈ st.completed_files <;>
          simp [set_current_file, mark_file_completed, hm]
      · intro e he
        simp only [processFiles, he]
        apply processFiles_failed_mono
        by_cases hm : f ∈ st.failed_files <;>
          simp [set_current_file, mark_file_failed, hm]
    · simp only [processFiles]
      exact ih _ f hfgs

lemma startsWithL_append (s t b : List Char)
    (h : startsWithL s t = true) : startsWithL (s ++ b) t = true := by
  induction t generalizing s with
  | nil => cases s <;> simp [startsWithL]
  | cons d ds ih =>
    cases s with
    | nil => simp [startsWithL] at h
    | cons c cs =>
      simp only [startsWithL, Bool.and_eq_true] at h
      simp only [List.cons_append, startsWithL, Bool.and_eq_true]
      exact ⟨h.1, ih cs h.2⟩

lemma containsSub_of_nil (s : List Char) : containsSub s [] = true := by
  induction s with
  | nil => rfl
  | cons c s' ih => simp [containsSub, startsWithL]

lemma containsSub_append (s b t : List Char)
    (h : containsSub s t = true) : containsSub (s ++ b) t = true := by
  induction s with
  | nil =>
    cases t with
    | nil => exact containsSub_of_nil b
    | cons d ds => simp [containsSub, startsWithL] at h
  | cons c s' ih =>
    simp only [containsSub, Bool.or_eq_true] at h
    simp only [List.cons_append, containsSub, Bool.or_eq_true]
    rcases h with h | h
    · exact Or.inl (startsWithL_append _ _ _ h)
    · exact Or.inr (ih h)

/-- Stripping trailing slashes yields a prefix of the original string. -/
lemma rstripSlash_decomp (s : List Char) : ∃ b, s = rstripSlash s ++ b := by
  refine ⟨(s.reverse.takeWhile (fun c => c == '/')).reverse, ?_⟩
  rw [rstripSlash, ← List.reverse_append, List.takeWhile_append_dropWhile,
    List.reverse_reverse]

/-- A substring absent from a string is absent from its slash-stripped
form. -/
lemma not_contains_rstrip (s t : List Char)
    (h : containsSub s t = false) :
    containsSub (rstripSlash s) t = false := by
  by_contra hc
  rw [Bool.not_eq_false] at hc
  obtain ⟨b, hb⟩ := rstripSlash_decomp s
  have h2 := containsSub_append _ b _ hc
  rw [← hb, h] at h2
  exact absurd h2 (by simp)

/-! ### Claims -/

/-- C1 counterexample: starting from a reset ledger, mark the single file
failed and then mark it completed. The path stays in `failed_files`
(`mark_file_completed` never removes it), so `completed` and `failed`
intersect, refuting the claimed invariant. -/
theorem mark_completed_keeps_failed_cex :
    "a" ∈ (mark_file_completed "a" 1 2 (mark_file_failed "a" "boom" 1
        (init_task "r" ["a"] 0 freshLedger))).completed_files ∧
    "a" ∈ (mark_file_completed "a" 1 2 (mark_file_failed "a" "boom" 1
        (init_task "r" ["a"] 0 freshLedger))).failed_files := by
  decide

/-- C1 (amended): `mark_file_completed` adds the path to `completed_files`
but leaves `failed_files` entirely unchanged; hence a path marked failed in
an earlier run and marked completed later is a member of both sets, and the
disjointness invariant does not hold. -/
theorem mark_file_completed_keeps_failed (p : String) (s : ℚ) (now : ℕ)
    (st : Ledger) :
    (mark_file_completed p s now st).failed_files = st.failed_files ∧
    p ∈ (mark_file_completed p s now st).completed_files := by
  by_cases h : p ∈ st.completed_files <;> simp [mark_file_completed, h]

/-- C2: `init_task` (reconcile) is idempotent — running it a second time
with the same repository id and the same file list (at any later clock
value) leaves every stored field unchanged. -/
theorem init_task_idempotent (repo_id : String) (files : List String)
    (n1 n2 : ℕ) (st : Ledger) :
    init_task repo_id files n2 (init_task repo_id files n1 st) =
      init_task repo_id files n1 st := by
  obtain ⟨l, h1, h2, h3, h4⟩ := init_task_result repo_id files n1 st
  have ha : ¬ ∃ x ∈ files, x ∉ l := by push_neg; exact h3
  have hb : ¬ ∃ x ∈ l, x ∉ files := by push_neg; exact h4
  conv_lhs => rw [init_task.eq_def]
  rw [h1, h2]
  simp [ha, hb]

/-- C3 counterexample: shrinking the list from `[a, b]` to `[b]` removes
the completed path `a` from `completed_files`, but its entry in the
per-file detail mapping survives, refuting the claim that the entry is
removed from the detail mapping. -/
theorem init_task_shrink_keeps_details_cex :
    getDetail "a"
        (init_task "r" ["b"] 5 shrinkExampleLedger).file_details =
      some (.completed 1 0) ∧
    "a" ∉ (init_task "r" ["b"] 5 shrinkExampleLedger).completed_files ∧
    "a" ∉ (init_task "r" ["b"] 5 shrinkExampleLedger).failed_files := by
  decide

/-- C3 (amended): reconciling a stored ledger (repository `R`, known list
`K`) with the same `R` and a strict subset `L` of `K` sets the known file
set to `L` and drops every path outside `L` from `completed_files` and
`failed_files` (keeping the rest, in order); the per-file detail mapping,
however, is left entirely unchanged — stale detail entries for the dropped
paths are retained. -/
theorem init_task_shrink (R : String) (L : List String) (now : ℕ)
    (st : Ledger) (K : List String) (hrepo : st.repo_id = R)
    (hK : st.all_files = some K) (hsub : ∀ f ∈ L, f ∈ K)
    (hstrict : ∃ f ∈ K, f ∉ L) :
    (init_task R L now st).all_files = some L ∧
    (init_task R L now st).completed_files =
      st.completed_files.filter (fun f => decide (f ∈ L)) ∧
    (init_task R L now st).failed_files =
      st.failed_files.filter (fun f => decide (f ∈ L)) ∧
    (∀ p, p ∉ L → p ∉ (init_task R L now st).completed_files ∧
      p ∉ (init_task R L now st).failed_files) ∧
    (init_task R L now st).file_details = st.file_details := by
  have hnew : ¬ ∃ x ∈ L, x ∉ K := by push_neg; exact hsub
  have key : init_task R L now st = reconcileUpdate L st := by
    rw [init_task.eq_def, if_neg (by simp [hrepo]), hK]
    simp [hnew, hstrict]
  rw [key]
  refine ⟨rfl, rfl, rfl, ?_, rfl⟩
  intro p hp
  constructor <;> simp [reconcileUpdate, List.mem_filter, hp]

/-- C3 witness at a concrete input: shrink from `[a, b]` to `[b]`. -/
theorem init_task_shrink_witness :
    (init_task "r" ["b"] 5 shrinkExampleLedger).all_files = some ["b"] ∧
    (init_task "r" ["b"] 5 shrinkExampleLedger).completed_files =
      shrinkExampleLedger.completed_files.filter
        (fun f => decide (f ∈ ["b"])) ∧
    (init_task "r" ["b"] 5 shrinkExampleLedger).failed_files =
      shrinkExampleLedger.failed_files.filter
        (fun f => decide (f ∈ ["b"])) ∧
    (∀ p, p ∉ ["b"] →
      p ∉ (init_task "r" ["b"] 5 shrinkExampleLedger).completed_files ∧
      p ∉ (init_task "r" ["b"] 5 shrinkExampleLedger).failed_files) ∧
    (init_task "r" ["b"] 5 shrinkExampleLedger).file_details =
      shrinkExampleLedger.file_details :=
  init_task_shrink "r" ["b"] 5 shrinkExampleLedger ["a", "b"] rfl rfl
    (by decide) ⟨"a", by decide⟩

/-- C4: `get_remaining_files L` is `L` with exactly the completed paths
removed — membership is membership in `L` outside `completed_files`, the
result is a sublist of `L` (relative order kept), multiplicities of
non-completed paths are kept, and the result depends only on
`completed_files` (the failed set has no effect). -/
theorem get_remaining_files_spec (L : List String) (st : Ledger) :
    (∀ f, f ∈ get_remaining_files L st ↔
      f ∈ L ∧ f ∉ st.completed_files) ∧
    (get_remaining_files L st).Sublist L ∧
    (∀ f, f ∉ st.completed_files →
      (get_remaining_files L st).count f = L.count f) ∧
    (∀ st' : Ledger, st'.completed_files = st.completed_files →
      get_remaining_files L st' = get_remaining_files L st) := by
  refine ⟨?_, ?_, ?_, ?_⟩
  · intro f; simp [get_remaining_files]
  · exact List.filter_sublist L
  · intro f hf
    unfold get_remaining_files
    rw [List.count_filter]
    simp [hf]
  · intro st' h
    simp [get_remaining_files, h]

/-- C6: the pattern filter keeps exactly the files retained by the
include/exclude rule (absent include list OR some include glob matches,
AND absent exclude list OR no exclude glob matches), preserves relative
order and multiplicity (a sublist of the input, each kept file exactly as
often as in the input), and is idempotent. The hypotheses encode Python's
truthiness: an empty pattern list is falsy and means "no list". -/
theorem filterFiles_spec (files : List String)
    (incl excl : Option (List String))
    (hI : incl ≠ some []) (hE : excl ≠ some []) :
    (∀ f, f ∈ filterFiles incl excl files ↔
      f ∈ files ∧ retainFile incl excl f = true) ∧
    (filterFiles incl excl files).Sublist files ∧
    (∀ f, (filterFiles incl excl files).count f =
      if retainFile incl excl f then files.count f else 0) ∧
    filterFiles incl excl (filterFiles incl excl files) =
      filterFiles incl excl files := by
  have key := filterFiles_eq_filter incl excl files hI hE
  refine ⟨?_, ?_, ?_, ?_⟩
  · intro f; rw [key]; simp [List.mem_filter]
  · rw [key]; exact List.filter_sublist files
  · intro f
    rw [key]
    by_cases hf : retainFile incl excl f = true
    · rw [if_pos hf]
      exact List.count_filter hf
    · rw [if_neg hf]
      refine List.count_eq_zero.mpr ?_
      intro hmem
      exact hf (List.of_mem_filter hmem)
  · rw [key, filterFiles_eq_filter incl excl _ hI hE, List.filter_filter]
    exact List.filter_congr (fun a _ => Bool.and_self _)

/-- C6 witness at a concrete input: one include glob, one exclude glob. -/
theorem filterFiles_spec_witness :
    (∀ f, f ∈ filterFiles (some ["*.json", "*.md"]) (some ["a*"])
        ["a.json", "b.json", "c.bin", "d.md"] ↔
      f ∈ ["a.json", "b.json", "c.bin", "d.md"] ∧
      retainFile (some ["*.json", "*.md"]) (some ["a*"]) f = true) ∧
    (filterFiles (some ["*.json", "*.md"]) (some ["a*"])
        ["a.json", "b.json", "c.bin", "d.md"]).Sublist
      ["a.json", "b.json", "c.bin", "d.md"] ∧
    (∀ f, (filterFiles (some ["*.json", "*.md"]) (some ["a*"])
        ["a.json", "b.json", "c.bin", "d.md"]).count f =
      if retainFile (some ["*.json", "*.md"]) (some ["a*"]) f then
        (["a.json", "b.json", "c.bin", "d.md"] : List String).count f
      else 0) ∧
    filterFiles (some ["*.json", "*.md"]) (some ["a*"])
        (filterFiles (some ["*.json", "*.md"]) (some ["a*"])
          ["a.json", "b.json", "c.bin", "d.md"]) =
      filterFiles (some ["*.json", "*.md"]) (some ["a*"])
        ["a.json", "b.json", "c.bin", "d.md"] :=
  filterFiles_spec ["a.json", "b.json", "c.bin", "d.md"]
    (some ["*.json", "*.md"]) (some ["a*"]) (by simp) (by simp)

/-- C5: `mark_file_completed` is idempotent on a path not yet completed —
the second call changes nothing, the path appears in `completed_files`
exactly once, the size is added exactly once, and the detail entry records
the completion. -/
theorem mark_file_completed_idem (p : String) (s : ℚ) (n1 n2 : ℕ)
    (st : Ledger) (h : p ∉ st.completed_files) :
    mark_file_completed p s n2 (mark_file_completed p s n1 st) =
      mark_file_completed p s n1 st ∧
    (mark_file_completed p s n1 st).completed_files.count p = 1 ∧
    (mark_file_completed p s n1 st).downloaded_size_mb =
      st.downloaded_size_mb + s ∧
    getDetail p (mark_file_completed p s n1 st).file_details =
      some (.completed s n1) := by
  have h1 : p ∈ (mark_file_completed p s n1 st).completed_files := by
    simp [mark_file_completed, h]
  refine ⟨?_, ?_, ?_, ?_⟩
  · set st1 := mark_file_completed p s n1 st with hst1
    rw [mark_file_completed.eq_def, if_pos h1]
  · simp [mark_file_completed, h, List.count_append,
      List.count_eq_zero_of_not_mem h]
  · simp [mark_file_completed, h]
  · simp [mark_file_completed, h, getDetail_setDetail]

/-- C5 witness at a concrete input. -/
theorem mark_file_completed_idem_witness :
    mark_file_completed "a" 2 1 (mark_file_completed "a" 2 0 freshLedger) =
      mark_file_completed "a" 2 0 freshLedger ∧
    (mark_file_completed "a" 2 0 freshLedger).completed_files.count "a" = 1 ∧
    (mark_file_completed "a" 2 0 freshLedger).downloaded_size_mb =
      freshLedger.downloaded_size_mb + 2 ∧
    getDetail "a" (mark_file_completed "a" 2 0 freshLedger).file_details =
      some (.completed 2 0) :=
  mark_file_completed_idem "a" 2 0 1 freshLedger (by decide)

/-- C7 counterexample: the local file exists and its size (0) equals the
remote content-length (0), yet the fetcher does not skip — the code
requires `size_bytes > 0` — so with failing transfers it performs 3
attempts and returns failure, refuting the claim for the 0-byte case. -/
theorem download_zero_length_not_skipped_cex :
    (download_single_file zeroLengthEnv 3 "f" freshLedger).ok = false ∧
    (download_single_file zeroLengthEnv 3 "f" freshLedger).attempts = 3 ∧
    "f" ∈ (download_single_file zeroLengthEnv 3 "f"
        freshLedger).ledger.failed_files := by
  decide

/-- C7 (amended): when the local file exists and its size equals the
remote content-length and that content-length is positive, the fetcher
returns success with zero transfer attempts (and no backoff sleeps) and
marks the file completed. -/
theorem download_single_file_skip (env : FetchEnv) (n : ℕ) (f : String)
    (st : Ledger) (h1 : env.localExists = true)
    (h2 : 0 < env.remoteBytes) (h3 : env.localSize = env.remoteBytes) :
    download_single_file env n f st =
      ⟨true,
        mark_file_completed f ((env.remoteBytes : ℚ) / (1024 * 1024))
          env.time st, 0, []⟩ ∧
    f ∈ (download_single_file env n f st).ledger.completed_files := by
  have key : download_single_file env n f st =
      ⟨true,
        mark_file_completed f ((env.remoteBytes : ℚ) / (1024 * 1024))
          env.time st, 0, []⟩ := by
    unfold download_single_file
    rw [if_pos h1, if_pos h2, if_pos h3]
  refine ⟨key, ?_⟩
  rw [key]
  by_cases hm : f ∈ st.completed_files <;>
    simp [mark_file_completed, hm]

/-- C7 witness at a concrete input (local size 5 = remote size 5). -/
theorem download_single_file_skip_witness :
    download_single_file skipEnv 3 "f" freshLedger =
      ⟨true,
        mark_file_completed "f" ((skipEnv.remoteBytes : ℚ) / (1024 * 1024))
          skipEnv.time freshLedger, 0, []⟩ ∧
    "f" ∈ (download_single_file skipEnv 3 "f"
        freshLedger).ledger.completed_files :=
  download_single_file_skip skipEnv 3 "f" freshLedger rfl (by decide) rfl

/-- C8 counterexample: file `a` is already in `failed_files` with detail
`old`; after a run in which every attempt fails with message `new`, the
detail still reads `old` (and the ledger is unchanged), refuting the claim
that the last attempt's error message is recorded also in that case. -/
theorem download_failed_detail_not_updated_cex :
    (download_single_file allFailEnvNew 3 "a" failedBeforeLedger).ok =
      false ∧
    getDetail "a" (download_single_file allFailEnvNew 3 "a"
        failedBeforeLedger).ledger.file_details =
      some (.failed "old" 0) ∧
    (FileDetail.failed "old" 0 ≠ FileDetail.failed "new" 7) ∧
    (download_single_file allFailEnvNew 3 "a" failedBeforeLedger).ledger =
      failedBeforeLedger := by
  decide

/-- C8 (amended): with no cancellation and every attempt failing (and the
already-complete skip not applicable), the fetcher performs exactly
`max_retries` attempts, sleeps exactly `2 ^ i` after failed attempt `i`
for `i < max_retries - 1` (no sleep after the last), returns failure, and
adds the path to `failed_files`; the per-file detail records the last
attempt's error message only when the path was not already in
`failed_files` — otherwise the earlier record is retained and the ledger
is unchanged. -/
theorem download_single_file_all_fail (env : FetchEnv) (n : ℕ) (f : String)
    (st : Ledger) (m : ℕ → String) (hn : 0 < n)
    (hstop : ∀ j, env.stopAt j = false)
    (hfail : ∀ j, j < n → env.attemptResult j = .error (m j))
    (hskip : env.localExists = false ∨ env.remoteBytes = 0 ∨
      env.localSize ≠ env.remoteBytes) :
    download_single_file env n f st =
      ⟨false, mark_file_failed f (m (n - 1)) env.time st, n,
        (List.range (n - 1)).map (fun j => 2 ^ j)⟩ ∧
    f ∈ (download_single_file env n f st).ledger.failed_files ∧
    (f ∉ st.failed_files →
      getDetail f (download_single_file env n f st).ledger.file_details =
        some (.failed (m (n - 1)) env.time)) ∧
    (f ∈ st.failed_files →
      (download_single_file env n f st).ledger = st) := by
  have hloop := attemptLoop_all_fail env f m hstop n 0 st [] hn
    (fun j hj => by simpa using hfail j hj)
  simp only [Nat.zero_add, List.nil_append] at hloop
  have key : download_single_file env n f st =
      ⟨false, mark_file_failed f (m (n - 1)) env.time st, n,
        (List.range (n - 1)).map (fun j => 2 ^ j)⟩ := by
    unfold download_single_file
    split_ifs with hA hB hC
    · exfalso
      rcases hskip with h | h | h
      · rw [hA] at h; simp at h
      · omega
      · exact h hC
    · exact hloop
    · exact hloop
    · exact hloop
  refine ⟨key, ?_, ?_, ?_⟩
  · rw [key]
    by_cases hm : f ∈ st.failed_files <;> simp [mark_file_failed, hm]
  · intro hnot
    rw [key]
    simp [mark_file_failed, hnot, getDetail_setDetail]
  · intro hmem
    rw [key]
    simp [mark_file_failed, hmem]

/-- C8 witness at a concrete input: 3 attempts all failing with `boom`,
sleeps `[1, 2]`, failure recorded. -/
theorem download_single_file_all_fail_witness :
    download_single_file allFailEnv 3 "a" freshLedger =
      ⟨false, mark_file_failed "a" "boom" 7 freshLedger, 3,
        (List.range 2).map (fun j => 2 ^ j)⟩ ∧
    "a" ∈ (download_single_file allFailEnv 3 "a"
        freshLedger).ledger.failed_files ∧
    ("a" ∉ freshLedger.failed_files →
      getDetail "a" (download_single_file allFailEnv 3 "a"
          freshLedger).ledger.file_details =
        some (.failed "boom" 7)) ∧
    ("a" ∈ freshLedger.failed_files →
      (download_single_file allFailEnv 3 "a" freshLedger).ledger =
        freshLedger) :=
  download_single_file_all_fail allFailEnv 3 "a" freshLedger
    (fun _ => "boom") (by decide) (fun _ => rfl) (fun _ _ => rfl)
    (Or.inl rfl)

/-- C9 counterexample: the flag cancels the run after 1 of 3 files
completed and nothing failed; exactly that file is recorded, the other two
are in neither set — but the run returns `true` (success), because line
617 returns `failed == 0`, refuting the claim that a cancelled run reports
failure. -/
theorem cancellation_reports_success_cex :
    (download_repository_run 1 (fun _ => .ok 1) ["a", "b", "c"] (some 1)
        (init_task "r" ["a", "b", "c"] 0 freshLedger)).fst = true ∧
    "a" ∈ (download_repository_run 1 (fun _ => .ok 1) ["a", "b", "c"]
        (some 1) (init_task "r" ["a", "b", "c"] 0
          freshLedger)).snd.completed_files ∧
    "b" ∉ (download_repository_run 1 (fun _ => .ok 1) ["a", "b", "c"]
        (some 1) (init_task "r" ["a", "b", "c"] 0
          freshLedger)).snd.completed_files ∧
    "b" ∉ (download_repository_run 1 (fun _ => .ok 1) ["a", "b", "c"]
        (some 1) (init_task "r" ["a", "b", "c"] 0
          freshLedger)).snd.failed_files ∧
    (download_repository_run 1 (fun _ => .ok 1) ["a", "b", "c"] (some 1)
        (init_task "r" ["a", "b", "c"] 0
          freshLedger)).snd.failed_files = [] := by
  decide

/-- C9 (amended): when the flag cancels the run while work remains
(`k < remaining.length` files finished), the final ledger records exactly
the finished files' results (no file is dispatched after the flag is
observed, and aborted fetches touch nothing): files past the cancellation
point that were in neither set stay in neither set, each finished file's
own result is retained — and the run returns success iff the failed set is
empty at that point (it does NOT unconditionally report failure). -/
theorem download_repository_cancel (time : ℕ)
    (outcome : String → Except String ℚ) (remaining : List String)
    (k : ℕ) (st : Ledger) (hk : k < remaining.length) :
    (download_repository_run time outcome remaining (some k) st).snd =
      processFiles time outcome (remaining.take k) st ∧
    ((download_repository_run time outcome remaining (some k) st).fst =
        true ↔
      (download_repository_run time outcome remaining (some k)
        st).snd.failed_files = []) ∧
    (∀ f ∈ remaining.drop k, f ∉ remaining.take k →
      (f ∉ st.completed_files →
        f ∉ (download_repository_run time outcome remaining (some k)
          st).snd.completed_files) ∧
      (f ∉ st.failed_files →
        f ∉ (download_repository_run time outcome remaining (some k)
          st).snd.failed_files)) ∧
    (∀ f ∈ remaining.take k,
      (∀ s, outcome f = .ok s →
        f ∈ (download_repository_run time outcome remaining (some k)
          st).snd.completed_files) ∧
      (∀ e, outcome f = .error e →
        f ∈ (download_repository_run time outcome remaining (some k)
          st).snd.failed_files)) := by
  have hne : remaining.isEmpty = false := by
    cases remaining with
    | nil => simp at hk
    | cons a l => rfl
  have hmin : min k remaining.length = k := Nat.min_eq_left (Nat.le_of_lt hk)
  have hrun : download_repository_run time outcome remaining (some k) st =
      ((processFiles time outcome (remaining.take k)
          st).failed_files.length == 0,
        processFiles time outcome (remaining.take k) st) := by
    unfold download_repository_run
    rw [if_neg (by simp [hne])]
    simp only [hmin]
  rw [hrun]
  refine ⟨rfl, ?_, ?_, ?_⟩
  · simp [List.length_eq_zero]
  · intro f _ hft
    have hu := processFiles_untouched time outcome (remaining.take k) st
      f hft
    exact ⟨fun hnc hc => hnc (hu.1.mp hc), fun hnf hc => hnf (hu.2.mp hc)⟩
  · intro f hf
    exact processFiles_records time outcome (remaining.take k) st f hf

/-- C9 witness at a concrete input: cancel after 1 of 3 files. -/
theorem download_repository_cancel_witness :
    (download_repository_run 1 (fun _ => .ok 1) ["a", "b", "c"] (some 1)
        freshLedger).snd =
      processFiles 1 (fun _ => .ok 1)
        ((["a", "b", "c"] : List String).take 1) freshLedger ∧
    ((download_repository_run 1 (fun _ => .ok 1) ["a", "b", "c"] (some 1)
        freshLedger).fst = true ↔
      (download_repository_run 1 (fun _ => .ok 1) ["a", "b", "c"] (some 1)
        freshLedger).snd.failed_files = []) ∧
    (∀ f ∈ (["a", "b", "c"] : List String).drop 1,
      f ∉ (["a", "b", "c"] : List String).take 1 →
      (f ∉ freshLedger.completed_files →
        f ∉ (download_repository_run 1 (fun _ => .ok 1) ["a", "b", "c"]
          (some 1) freshLedger).snd.completed_files) ∧
      (f ∉ freshLedger.failed_files →
        f ∉ (download_repository_run 1 (fun _ => .ok 1) ["a", "b", "c"]
          (some 1) freshLedger).snd.failed_files)) ∧
    (∀ f ∈ (["a", "b", "c"] : List String).take 1,
      (∀ s, (fun _ => Except.ok 1 : String → Except String ℚ) f = .ok s →
        f ∈ (download_repository_run 1 (fun _ => .ok 1) ["a", "b", "c"]
          (some 1) freshLedger).snd.completed_files) ∧
      (∀ e, (fun _ => Except.ok 1 : String → Except String ℚ) f =
          .error e →
        f ∈ (download_repository_run 1 (fun _ => .ok 1) ["a", "b", "c"]
          (some 1) freshLedger).snd.failed_files)) :=
  download_repository_cancel 1 (fun _ => .ok 1) ["a", "b", "c"] 1
    freshLedger (by decide)

/-- C10: for every url that does not contain `hf-mirror.com`,
`parse_repo_url` reports the official endpoint, not a mirror, and the repo
id claimed: the url with trailing `/` stripped, truncated before the first
`/tree/` when present, and with every occurrence of
`https://huggingface.co/` deleted (`officialRepoId` words exactly that
pipeline). -/
theorem parse_repo_url_official (url : String)
    (h : containsSub url.data ("hf-mirror.com".data) = false) :
    parse_repo_url url =
      (officialRepoId url, false, "https://huggingface.co") := by
  have h2 := not_contains_rstrip url.data _ h
  simp only [parse_repo_url, officialRepoId]
  rw [if_neg (by simp [h2])]
  by_cases htree :
      containsSub (rstripSlash url.data) "/tree/".data = true
  · simp [htree]
  · simp [htree]

/-- C10 witness: a bare `owner/name` input is returned unchanged with the
official endpoint. -/
theorem parse_repo_url_official_witness :
    parse_repo_url "owner/name" =
      ("owner/name", false, "https://huggingface.co") :=
  (parse_repo_url_official "owner/name" (by decide)).trans (by decide)

end HFD
